import Mathlib

/-!
Verification development for the Chrome-extension analyzer.

The analyzer's upload handler (`handleFileUpload`) validates the uploaded
file's extension, strips the signed-package (.crx) header by reading two
little-endian 32-bit length fields, loads the remaining bytes as a zip
archive, extracts the non-directory entries, and parses `manifest.json`.
A second screen (`ExtensionRunner`) creates and revokes temporary object
URLs for previews and downloads.

Buffers are modelled as `List Nat` of byte values; JavaScript's number
semantics that matter here (signed 32-bit bitwise reads, `ArrayBuffer.slice`
clamping) are made explicit.  The external zip library (JSZip) is modelled
by an executable archive serialization `packArchive` / `loadZip` pair whose
entries carry the same data JSZip exposes (path, directory flag, raw bytes);
the `async('text')` decoding is modelled as UTF-8 decoding with U+FFFD
replacement, and the JavaScript string length feeding the recorded size is
modelled as the UTF-16 code-unit count.  `JSON.parse` is modelled by
an executable recursive-descent parser of the JSON grammar (numbers are
parsed with the full grammar; the model keeps the integer part of a numeric
literal, which is exact on the integer-valued fields manifests use).
-/

/-- One member of a loaded zip archive, as exposed by the zip library:
a path, a directory flag, and the member's raw bytes. -/
structure ZipEntry where
  path : String
  dir : Bool
  data : List Nat
  deriving Repr, DecidableEq

/-- Reads byte `i+j` of a `Uint8Array` view: an out-of-bounds read yields
`undefined`, which the bitwise operators coerce to 0. -/
def byteAt (view : List Nat) (i : Nat) : Nat :=
  (view.getD i 0) % 256

/-- `view[i] | (view[i+1] << 8) | (view[i+2] << 16) | (view[i+3] << 24)`:
a little-endian 32-bit read whose result is a SIGNED 32-bit integer,
because JavaScript bitwise operators work on 32-bit two's complement. -/
def readLE32 (view : List Nat) (i : Nat) : Int :=
  let u : Nat := byteAt view i + byteAt view (i+1) * 256
      + byteAt view (i+2) * 65536 + byteAt view (i+3) * 16777216
  if u < 2147483648 then (u : Int) else (u : Int) - 4294967296

/-- `ArrayBuffer.prototype.slice(begin)` with one argument: a negative
`begin` counts from the end (clamped to 0), a `begin` past the end yields
an empty buffer; the result runs to the end of the buffer.  It never
throws. -/
def sliceJS (buf : List Nat) (start : Int) : List Nat :=
  let len : Int := buf.length
  let s : Int := if start < 0 then max (len + start) 0 else min start len
  buf.drop s.toNat

/-- Little-endian 4-byte encoding of a nonnegative value, for building
header fields in theorem statements. -/
def le32 (n : Nat) : List Nat :=
  [n % 256, n / 256 % 256, n / 65536 % 256, n / 16777216 % 256]

/-! ### Archive serialization model (for the external zip library)

`packArchive` serializes a list of entries; `loadZip` models
`JSZip.loadAsync`: it either recovers the entries or fails (`none`), and it
fails on any buffer that does not carry the archive framing — in
particular on an empty buffer. -/

/-- Base-255 digits of `n`, least significant first, computed with
explicit fuel. -/
def natDigits : Nat → Nat → List Nat
  | 0, _ => []
  | _+1, 0 => []
  | fuel+1, n+1 => (n+1) % 255 :: natDigits fuel ((n+1) / 255)

/-- Length-value encoding of a natural number: its base-255 digits
followed by the terminator byte 255. -/
def encNat (n : Nat) : List Nat :=
  natDigits (n+1) n ++ [255]

/-- Reads base-255 digits up to the terminator byte 255. -/
def decNatAux : List Nat → Option (List Nat × List Nat)
  | [] => none
  | b :: rest =>
    if b = 255 then some ([], rest)
    else
      match decNatAux rest with
      | some (ds, r) => some (b :: ds, r)
      | none => none

/-- Decodes one `encNat`-encoded natural number, returning the rest. -/
def decNat (l : List Nat) : Option (Nat × List Nat) :=
  match decNatAux l with
  | some (ds, r) => some (Nat.ofDigits 255 ds, r)
  | none => none

/-- Encodes one character of a path. -/
def encChar (c : Char) : List Nat :=
  encNat c.toNat

/-- Encodes a path string: character count, then each character. -/
def encStr (s : String) : List Nat :=
  encNat s.length ++ (s.data.map encChar).flatten

/-- Decodes `n` path characters. -/
def decChars : Nat → List Nat → Option (List Char × List Nat)
  | 0, l => some ([], l)
  | n+1, l =>
    match decNat l with
    | some (c, l1) =>
      match decChars n l1 with
      | some (cs, l2) => some (Char.ofNat c :: cs, l2)
      | none => none
    | none => none

/-- Decodes one path string. -/
def decStr (l : List Nat) : Option (String × List Nat) :=
  match decNat l with
  | some (n, l1) =>
    match decChars n l1 with
    | some (cs, l2) => some (String.mk cs, l2)
    | none => none
  | none => none

/-- Encodes one archive member: directory flag, path, then
length-prefixed raw data bytes. -/
def encEntry (e : ZipEntry) : List Nat :=
  encNat (if e.dir then 1 else 0) ++ encStr e.path ++ encNat e.data.length ++ e.data

/-- Decodes one archive member. -/
def decEntry (l : List Nat) : Option (ZipEntry × List Nat) :=
  match decNat l with
  | some (d, l1) =>
    match decStr l1 with
    | some (p, l2) =>
      match decNat l2 with
      | some (n, l3) =>
        if n ≤ l3.length then some (⟨p, d != 0, l3.take n⟩, l3.drop n) else none
      | none => none
    | none => none
  | none => none

/-- Decodes exactly `n` archive members. -/
def decEntries : Nat → List Nat → Option (List ZipEntry × List Nat)
  | 0, l => some ([], l)
  | n+1, l =>
    match decEntry l with
    | some (e, l1) =>
      match decEntries n l1 with
      | some (es, l2) => some (e :: es, l2)
      | none => none
    | none => none

/-- Archive framing magic (the familiar zip local-header signature). -/
def zipMagic : List Nat := [80, 75, 3, 4]

/-- Serializes an archive: magic, member count, then the members. -/
def packArchive (es : List ZipEntry) : List Nat :=
  zipMagic ++ encNat es.length ++ (es.map encEntry).flatten

/-- Model of `JSZip.loadAsync`: recovers the archive members from a
buffer, or fails on a buffer that does not carry the framing (an empty
buffer in particular). -/
def loadZip (l : List Nat) : Option (List ZipEntry) :=
  if l.take 4 = zipMagic then
    match decNat (l.drop 4) with
    | some (n, l1) =>
      match decEntries n l1 with
      | some (es, []) => some es
      | some (_, _ :: _) => none
      | none => none
    | none => none
  else none

/-! ### Round-trip lemmas for the archive model -/

theorem decNatAux_append (ds rest : List Nat) (h : ∀ d ∈ ds, d ≠ 255) :
    decNatAux (ds ++ 255 :: rest) = some (ds, rest) := by
  induction ds with
  | nil => simp [decNatAux]
  | cons b ds ih =>
    have hb : b ≠ 255 := h b (List.mem_cons_self b ds)
    have hds : ∀ d ∈ ds, d ≠ 255 := fun d hd => h d (List.mem_cons_of_mem b hd)
    simp [decNatAux, hb, ih hds]

theorem natDigits_lt (fuel n : Nat) : ∀ d ∈ natDigits fuel n, d < 255 := by
  induction fuel generalizing n with
  | zero => simp [natDigits]
  | succ fuel ih =>
    cases n with
    | zero => simp [natDigits]
    | succ m =>
      intro d hd
      rw [natDigits] at hd
      rcases List.mem_cons.mp hd with h | h
      · subst h
        exact Nat.mod_lt _ (by norm_num)
      · exact ih _ d h

theorem ofDigits_natDigits (fuel n : Nat) (h : n < 255 ^ fuel) :
    Nat.ofDigits 255 (natDigits fuel n) = n := by
  induction fuel generalizing n with
  | zero =>
    simp only [pow_zero, Nat.lt_one_iff] at h
    subst h
    simp [natDigits, Nat.ofDigits]
  | succ fuel ih =>
    cases n with
    | zero => simp [natDigits, Nat.ofDigits]
    | succ m =>
      have hdiv : (m+1) / 255 < 255 ^ fuel := by
        rw [Nat.div_lt_iff_lt_mul (by norm_num : 0 < 255)]
        rw [pow_succ] at h
        exact h
      rw [natDigits, Nat.ofDigits_cons, ih _ hdiv]
      omega

theorem self_lt_pow_succ (n : Nat) : n < 255 ^ (n+1) :=
  calc n < 2 ^ n := Nat.lt_two_pow n
  _ ≤ 255 ^ n := Nat.pow_le_pow_left (by norm_num) n
  _ ≤ 255 ^ (n+1) := Nat.pow_le_pow_right (by norm_num) (Nat.le_succ n)

theorem decNat_encNat (n : Nat) (rest : List Nat) :
    decNat (encNat n ++ rest) = some (n, rest) := by
  have hlt : ∀ d ∈ natDigits (n+1) n, d ≠ 255 :=
    fun d hd => Nat.ne_of_lt (natDigits_lt _ _ d hd)
  have : encNat n ++ rest = natDigits (n+1) n ++ 255 :: rest := by
    simp [encNat]
  rw [this, decNat, decNatAux_append _ _ hlt]
  simp [ofDigits_natDigits _ _ (self_lt_pow_succ n)]

theorem decChars_enc (cs : List Char) (rest : List Nat) :
    decChars cs.length ((cs.map encChar).flatten ++ rest) = some (cs, rest) := by
  induction cs with
  | nil => simp [decChars]
  | cons c cs ih =>
    simp [decChars, encChar, decNat_encNat, ih, Char.ofNat_toNat, List.append_assoc]

theorem decStr_enc (s : String) (rest : List Nat) :
    decStr (encStr s ++ rest) = some (s, rest) := by
  obtain ⟨d⟩ := s
  simp [decStr, encStr, List.append_assoc, decNat_encNat, decChars_enc, String.length]

theorem decEntry_enc (e : ZipEntry) (rest : List Nat) :
    decEntry (encEntry e ++ rest) = some (e, rest) := by
  obtain ⟨p, d, dat⟩ := e
  cases d <;>
    simp [encEntry, List.append_assoc, decEntry, decNat_encNat, decStr_enc,
      List.take_left, List.drop_left]

theorem decEntries_enc (es : List ZipEntry) (rest : List Nat) :
    decEntries es.length ((es.map encEntry).flatten ++ rest) = some (es, rest) := by
  induction es with
  | nil => simp [decEntries]
  | cons e es ih =>
    simp [decEntries, decEntry_enc, ih, List.append_assoc]

theorem loadZip_pack (es : List ZipEntry) :
    loadZip (packArchive es) = some es := by
  have h2 := decEntries_enc es []
  rw [List.append_nil] at h2
  have hm : (zipMagic ++ (encNat es.length ++ (es.map encEntry).flatten)).take 4
      = zipMagic := List.take_left' rfl
  have hd : (zipMagic ++ (encNat es.length ++ (es.map encEntry).flatten)).drop 4
      = encNat es.length ++ (es.map encEntry).flatten := List.drop_left' rfl
  simp [packArchive, loadZip, List.append_assoc, hm, hd, decNat_encNat, h2]

theorem loadZip_nil : loadZip [] = none := by
  simp [loadZip, zipMagic]

theorem loadZip_length_ge (l : List Nat) (es : List ZipEntry)
    (h : loadZip l = some es) : 4 ≤ l.length := by
  by_contra hlt
  push_neg at hlt
  have htake : (l.take 4).length = l.length := by
    simp [List.length_take]
    omega
  rw [loadZip] at h
  by_cases hm : l.take 4 = zipMagic
  · have : l.length = 4 := by
      rw [← htake, hm]
      rfl
    omega
  · simp [hm] at h

/-! ### JSON model (for `JSON.parse`) -/

/-- JSON values as produced by the JSON parser. -/
inductive Json where
  | null
  | bool (b : Bool)
  | num (n : Int)
  | str (s : String)
  | arr (elems : List Json)
  | obj (fields : List (String × Json))
  deriving Repr

/-- JSON insignificant whitespace. -/
def isJsonWs (c : Char) : Bool :=
  c == ' ' || c == '\t' || c == '\n' || c == Char.ofNat 13

/-- Drops leading JSON whitespace. -/
def skipWs : List Char → List Char
  | [] => []
  | c :: rest => if isJsonWs c then skipWs rest else c :: rest

/-- Value of one hexadecimal digit. -/
def hexVal (c : Char) : Option Nat :=
  if '0' ≤ c ∧ c ≤ '9' then some (c.toNat - 48)
  else if 'a' ≤ c ∧ c ≤ 'f' then some (c.toNat - 87)
  else if 'A' ≤ c ∧ c ≤ 'F' then some (c.toNat - 55)
  else none

/-- Single-character JSON string escapes. -/
def escChar (c : Char) : Option Char :=
  if c = '"' then some '"'
  else if c = '\\' then some '\\'
  else if c = '/' then some '/'
  else if c = 'b' then some (Char.ofNat 8)
  else if c = 'f' then some (Char.ofNat 12)
  else if c = 'n' then some '\n'
  else if c = 'r' then some (Char.ofNat 13)
  else if c = 't' then some '\t'
  else none

/-- Parses the body of a JSON string literal (after the opening quote),
handling escapes and rejecting raw control characters. -/
def parseStrChars : Nat → List Char → Option (List Char × List Char)
  | 0, _ => none
  | _+1, [] => none
  | fuel+1, c :: rest =>
    if c = '"' then some ([], rest)
    else if c = '\\' then
      match rest with
      | [] => none
      | e :: rest2 =>
        if e = 'u' then
          match rest2 with
          | h1 :: h2 :: h3 :: h4 :: rest3 =>
            match hexVal h1, hexVal h2, hexVal h3, hexVal h4 with
            | some d1, some d2, some d3, some d4 =>
              match parseStrChars fuel rest3 with
              | some (cs, r) =>
                some (Char.ofNat (d1 * 4096 + d2 * 256 + d3 * 16 + d4) :: cs, r)
              | none => none
            | _, _, _, _ => none
          | _ => none
        else
          match escChar e with
          | some ec =>
            match parseStrChars fuel rest2 with
            | some (cs, r) => some (ec :: cs, r)
            | none => none
          | none => none
    else if c.toNat < 32 then none
    else
      match parseStrChars fuel rest with
      | some (cs, r) => some (c :: cs, r)
      | none => none

/-- Splits off a maximal run of decimal digits. -/
def spanDigits : List Char → (List Char × List Char)
  | [] => ([], [])
  | c :: rest =>
    if c.isDigit then
      let (ds, r) := spanDigits rest
      (c :: ds, r)
    else ([], c :: rest)

/-- Decimal value of a digit run. -/
def digitsToNat (ds : List Char) : Nat :=
  ds.foldl (fun acc c => acc * 10 + (c.toNat - 48)) 0

/-- Parses a JSON number literal.  The full grammar (sign, integer part
with no leading zeros, optional fraction, optional exponent) is consumed;
the model keeps the signed integer part of the literal as the value, which
is exact on the integer-valued fields manifests use. -/
def parseNumber (l : List Char) : Option (Int × List Char) :=
  let (neg, l1) :=
    match l with
    | '-' :: r => (true, r)
    | _ => (false, l)
  match l1 with
  | [] => none
  | c :: _ =>
    if ¬ c.isDigit then none
    else
      let (ip, l2) :=
        match l1 with
        | '0' :: r => (['0'], r)
        | _ => spanDigits l1
      let fr :=
        match l2 with
        | '.' :: r =>
          match spanDigits r with
          | ([], _) => none
          | (_, r2) => some r2
        | _ => some l2
      match fr with
      | none => none
      | some l3 =>
        let ex :=
          match l3 with
          | e :: r =>
            if e = 'e' ∨ e = 'E' then
              let r2 :=
                match r with
                | s :: r3 => if s = '+' ∨ s = '-' then r3 else r
                | [] => r
              match spanDigits r2 with
              | ([], _) => none
              | (_, r3) => some r3
            else some l3
          | [] => some l3
        match ex with
        | none => none
        | some l4 =>
          let v : Int := digitsToNat ip
          some (if neg then -v else v, l4)

mutual

/-- Parses one JSON value (after optional leading whitespace). -/
def parseValue : Nat → List Char → Option (Json × List Char)
  | 0, _ => none
  | fuel+1, l =>
    match skipWs l with
    | [] => none
    | c :: rest =>
      if c = '{' then
        match skipWs rest with
        | '}' :: r => some (.obj [], r)
        | r2 =>
          match parseMembers fuel r2 with
          | some (ms, r) => some (.obj ms, r)
          | none => none
      else if c = '[' then
        match skipWs rest with
        | ']' :: r => some (.arr [], r)
        | r2 =>
          match parseElems fuel r2 with
          | some (es, r) => some (.arr es, r)
          | none => none
      else if c = '"' then
        match parseStrChars (rest.length + 1) rest with
        | some (cs, r) => some (.str (String.mk cs), r)
        | none => none
      else if c = 't' then
        match rest with
        | 'r' :: 'u' :: 'e' :: r => some (.bool true, r)
        | _ => none
      else if c = 'f' then
        match rest with
        | 'a' :: 'l' :: 's' :: 'e' :: r => some (.bool false, r)
        | _ => none
      else if c = 'n' then
        match rest with
        | 'u' :: 'l' :: 'l' :: r => some (.null, r)
        | _ => none
      else
        match parseNumber (c :: rest) with
        | some (v, r) => some (.num v, r)
        | none => none

/-- Parses object members `string : value`, separated by commas, through
the closing brace. -/
def parseMembers : Nat → List Char → Option (List (String × Json) × List Char)
  | 0, _ => none
  | fuel+1, l =>
    match skipWs l with
    | '"' :: rest =>
      match parseStrChars (rest.length + 1) rest with
      | some (cs, r1) =>
        match skipWs r1 with
        | ':' :: r2 =>
          match parseValue fuel r2 with
          | some (v, r3) =>
            match skipWs r3 with
            | ',' :: r4 =>
              match parseMembers fuel r4 with
              | some (ms, r) => some ((String.mk cs, v) :: ms, r)
              | none => none
            | '}' :: r4 => some ([(String.mk cs, v)], r4)
            | _ => none
          | none => none
        | _ => none
      | none => none
    | _ => none

/-- Parses array elements separated by commas, through the closing
bracket. -/
def parseElems : Nat → List Char → Option (List Json × List Char)
  | 0, _ => none
  | fuel+1, l =>
    match parseValue fuel l with
    | some (v, r1) =>
      match skipWs r1 with
      | ',' :: r2 =>
        match parseElems fuel r2 with
        | some (es, r) => some (v :: es, r)
        | none => none
      | ']' :: r2 => some ([v], r2)
      | _ => none
    | none => none

end

/-- Model of `JSON.parse`: parses the whole string as one JSON value,
failing on trailing garbage.  The fuel bound covers the worst case of the
mutual recursion (two units per nesting character). -/
def parseJson (s : String) : Option Json :=
  match parseValue (2 * s.length + 2) s.data with
  | some (j, r) => if skipWs r = [] then some j else none
  | none => none

/-- Property access on the object built by `JSON.parse` (with duplicate
keys the last wins); `none` models `undefined`. -/
def Json.getField : Json → String → Option Json
  | .obj fields, k => (fields.reverse.find? (fun p => p.1 == k)).map (fun p => p.2)
  | _, _ => none

/-! ### The upload handler -/

/-- Payload of one extracted file (`string | ArrayBuffer`): text entries
hold the decoded string, binary entries the raw bytes. -/
inductive FileContent where
  | text (s : String)
  | binary (bytes : List Nat)
  deriving Repr, DecidableEq

/-- Is `b` a UTF-8 continuation byte (`10xxxxxx`)? -/
def isCont (b : Nat) : Bool :=
  128 ≤ b && b ≤ 191

/-- The U+FFFD replacement character emitted for invalid UTF-8. -/
def replChar : Char := Char.ofNat 65533

/-- UTF-8 decoding with U+FFFD replacement, with explicit fuel: ASCII
bytes map to themselves; valid 2-, 3- and 4-byte sequences (overlong
forms, surrogates and values above U+10FFFF excluded by the
lead-dependent ranges of the first continuation byte) map to their code
point; an invalid lead or continuation byte yields U+FFFD, decoding
resuming at the offending byte; a truncated final sequence yields
U+FFFD. -/
def utf8DecodeAux : Nat → List Nat → List Char
  | 0, _ => []
  | _+1, [] => []
  | fuel+1, b :: rest =>
    if b < 128 then Char.ofNat b :: utf8DecodeAux fuel rest
    else if 194 ≤ b && b ≤ 223 then
      match rest with
      | b2 :: rest2 =>
        if isCont b2 then
          Char.ofNat ((b - 192) * 64 + (b2 - 128)) :: utf8DecodeAux fuel rest2
        else replChar :: utf8DecodeAux fuel (b2 :: rest2)
      | [] => [replChar]
    else if 224 ≤ b && b ≤ 239 then
      match rest with
      | b2 :: rest2 =>
        if (if b = 224 then 160 ≤ b2 && b2 ≤ 191
            else if b = 237 then 128 ≤ b2 && b2 ≤ 159
            else isCont b2) then
          match rest2 with
          | b3 :: rest3 =>
            if isCont b3 then
              Char.ofNat ((b - 224) * 4096 + (b2 - 128) * 64 + (b3 - 128))
                :: utf8DecodeAux fuel rest3
            else replChar :: utf8DecodeAux fuel (b3 :: rest3)
          | [] => [replChar]
        else replChar :: utf8DecodeAux fuel (b2 :: rest2)
      | [] => [replChar]
    else if 240 ≤ b && b ≤ 244 then
      match rest with
      | b2 :: rest2 =>
        if (if b = 240 then 144 ≤ b2 && b2 ≤ 191
            else if b = 244 then 128 ≤ b2 && b2 ≤ 143
            else isCont b2) then
          match rest2 with
          | b3 :: rest3 =>
            if isCont b3 then
              match rest3 with
              | b4 :: rest4 =>
                if isCont b4 then
                  Char.ofNat ((b - 240) * 262144 + (b2 - 128) * 4096
                      + (b3 - 128) * 64 + (b4 - 128)) :: utf8DecodeAux fuel rest4
                else replChar :: utf8DecodeAux fuel (b4 :: rest4)
              | [] => [replChar]
            else replChar :: utf8DecodeAux fuel (b3 :: rest3)
          | [] => [replChar]
        else replChar :: utf8DecodeAux fuel (b2 :: rest2)
      | [] => [replChar]
    else replChar :: utf8DecodeAux fuel rest

/-- UTF-8 decoding of a whole byte list; the fuel bound suffices because
every step consumes at least one byte. -/
def utf8Decode (l : List Nat) : List Char :=
  utf8DecodeAux (l.length + 1) l

/-- `zipEntry.async('text')`: the member's bytes UTF-8-decoded to a
string. -/
def bytesToText (l : List Nat) : String :=
  String.mk (utf8Decode l)

/-- The JavaScript `.length` of a string: its UTF-16 code-unit count (a
code point above U+FFFF counts as a surrogate pair). -/
def utf16Length (s : String) : Nat :=
  s.data.foldl (fun k c => k + (if c.toNat < 65536 then 1 else 2)) 0

/-- `(content as string).length || (content as ArrayBuffer).byteLength || 0`:
the JavaScript length of the text, or the byte length of the binary
payload. -/
def contentSize : FileContent → Nat
  | .text s => utf16Length s
  | .binary bytes => bytes.length

/-- ASCII lower-casing of one character, as the case-insensitive regex
flag folds the ASCII letters of the extension alternatives. -/
def lowerChar (c : Char) : Char :=
  if 'A' ≤ c ∧ c ≤ 'Z' then Char.ofNat (c.toNat + 32) else c

/-- ASCII lower-casing of a string. -/
def toLowerJS (s : String) : String :=
  String.mk (s.data.map lowerChar)

/-- `String.prototype.endsWith(search)` with one argument. -/
def endsWithJS (s search : String) : Bool :=
  List.isSuffixOf search.data s.data

/-- The text-like extension test `/\.(json|js|html|css|txt|md)$/i` on the
entry path: a case-insensitive match of a dot plus one of the six
extensions at the end of the path. -/
def isTextFile (name : String) : Bool :=
  [".json", ".js", ".html", ".css", ".txt", ".md"].any
    (fun ext => endsWithJS (toLowerJS name) ext)

/-- One extracted file (`interface ExtensionFile`). -/
structure ExtensionFile where
  name : String
  size : Nat
  content : FileContent
  isText : Bool
  deriving Repr, DecidableEq

/-- The per-entry body of the extraction loop: classify by path, decode
the content accordingly, record the size. -/
def toExtensionFile (e : ZipEntry) : ExtensionFile :=
  let isText := isTextFile e.path
  let content :=
    if isText then FileContent.text (bytesToText e.data)
    else FileContent.binary e.data
  { name := e.path, size := contentSize content, content := content, isText := isText }

/-- The files pushed by the extraction loop: every non-directory entry, in
archive order. -/
def extractFiles (entries : List ZipEntry) : List ExtensionFile :=
  (entries.filter (fun e => !e.dir)).map toExtensionFile

/-- The manifest accumulation of the extraction loop: for each
non-directory entry whose path is exactly `manifest.json` and which is
classified as text, try `JSON.parse` on its decoded content; a successful
parse replaces the accumulator, while a parse failure is swallowed and
leaves it unchanged. -/
def manifestStep (acc : Option Json) (e : ZipEntry) : Option Json :=
  if !e.dir && e.path == "manifest.json" && isTextFile e.path then
    match parseJson (bytesToText e.data) with
    | some j => some j
    | none => acc
  else acc

/-- The manifest accumulated over the whole entry list. -/
def computeManifest (entries : List ZipEntry) : Option Json :=
  entries.foldl manifestStep none

/-- The component state an upload touches: `files`, `manifest`,
`selectedFile`. -/
structure AppState where
  files : List ExtensionFile
  manifest : Option Json
  selectedFile : Option ExtensionFile
  deriving Repr

/-- The outcome the upload handler reports through its toasts. -/
inductive UploadOutcome where
  | invalidInput
  | success (count : Nat)
  | processingError
  deriving Repr, DecidableEq

/-- The bytes handed to the zip loader: for a `.crx` name, the 16-byte
header size plus the two length fields read at bytes 12-15 and 16-19
gives the archive start, and the buffer is sliced from that offset to the
end; for any other (`.zip`) name, the whole buffer. -/
def uploadZipData (fileName : String) (buf : List Nat) : List Nat :=
  if endsWithJS fileName ".crx" then
    let headerSize : Int := 16
    let publicKeyLength := readLE32 buf 12
    let signatureLength := readLE32 buf 16
    let zipStartOffset := headerSize + publicKeyLength + signatureLength
    sliceJS buf zipStartOffset
  else buf

/-- `handleFileUpload`, given the selected file's name and bytes: the
extension gate, the signed-package (.crx) header arithmetic and slice, the
zip load, the extraction loop, and the state updates.  The outcome records
which toast fires; when the zip load throws, the catch branch only
reports, so the previous state is returned unchanged. -/
def handleFileUpload (st : AppState) (fileName : String) (buf : List Nat) :
    AppState × UploadOutcome :=
  if ¬ endsWithJS fileName ".crx" ∧ ¬ endsWithJS fileName ".zip" then
    (st, .invalidInput)
  else
    match loadZip (uploadZipData fileName buf) with
    | none => (st, .processingError)
    | some entries =>
      let extractedFiles := extractFiles entries
      let manifestData := computeManifest entries
      ({ files := extractedFiles, manifest := manifestData, selectedFile := none },
        .success extractedFiles.length)

/-! ### The runner screen's object-URL bookkeeping -/

/-- State of the runner screen's object-URL usage: the URLs created and
not yet revoked, a counter supplying fresh URLs, and the URL currently
stored in `extensionUrl`. -/
structure RunnerState where
  liveUrls : List Nat
  nextUrl : Nat
  extensionUrl : Option Nat
  deriving Repr, DecidableEq

/-- Initial runner state: no URL created yet. -/
def initialRunnerState : RunnerState := ⟨[], 0, none⟩

/-- `URL.createObjectURL`: a fresh URL becomes live. -/
def createObjectURL (st : RunnerState) : Nat × RunnerState :=
  (st.nextUrl,
    { st with liveUrls := st.liveUrls ++ [st.nextUrl], nextUrl := st.nextUrl + 1 })

/-- `URL.revokeObjectURL`: the URL stops being live. -/
def revokeObjectURL (st : RunnerState) (u : Nat) : RunnerState :=
  { st with liveUrls := st.liveUrls.erase u }

/-- `runExtension`: whether an HTML entry point exists or not, a blob URL
is created (for the entry point, or for the synthesized manifest page) and
stored in `extensionUrl`; the previously stored URL is not revoked. -/
def runExtension (files : List ExtensionFile) (st : RunnerState) : RunnerState :=
  let htmlFile := files.find? (fun f => endsWithJS f.name ".html" && f.isText)
  match htmlFile with
  | some _ =>
    let (url, st1) := createObjectURL st
    { st1 with extensionUrl := some url }
  | none =>
    let (url, st1) := createObjectURL st
    { st1 with extensionUrl := some url }

/-- `refreshExtension`: revokes the stored URL, if any, then runs again. -/
def refreshExtension (files : List ExtensionFile) (st : RunnerState) : RunnerState :=
  let st1 :=
    match st.extensionUrl with
    | some u => revokeObjectURL st u
    | none => st
  runExtension files st1

/-- `downloadFile` on the analyzer screen: creates a URL for the blob,
clicks the anchor, then revokes the URL immediately. -/
def downloadFile (st : RunnerState) : RunnerState :=
  let (url, st1) := createObjectURL st
  revokeObjectURL st1 url

/-! ### Supporting lemmas about the handler's pieces -/

theorem getD_append_offset (pre l : List Nat) (i j : Nat) (hpre : pre.length = i) :
    (pre ++ l).getD (i + j) 0 = l.getD j 0 := by
  rw [List.getD_append_right _ _ _ _ (by omega)]
  congr 1
  omega

theorem readLE32_append (pre : List Nat) (n : Nat) (rest : List Nat) (i : Nat)
    (hpre : pre.length = i) (hn : n < 2147483648) :
    readLE32 (pre ++ (le32 n ++ rest)) i = n := by
  have g0 := getD_append_offset pre (le32 n ++ rest) i 0 hpre
  have g1 := getD_append_offset pre (le32 n ++ rest) i 1 hpre
  have g2 := getD_append_offset pre (le32 n ++ rest) i 2 hpre
  have g3 := getD_append_offset pre (le32 n ++ rest) i 3 hpre
  rw [Nat.add_zero] at g0
  simp only [le32, List.cons_append, List.nil_append, List.getD_cons_zero,
    List.getD_cons_succ] at g0 g1 g2 g3
  simp only [readLE32, byteAt, le32, List.cons_append, List.nil_append]
  rw [g0, g1, g2, g3]
  have hu : n % 256 % 256 + n / 256 % 256 % 256 * 256 + n / 65536 % 256 % 256 * 65536
      + n / 16777216 % 256 % 256 * 16777216 = n := by omega
  rw [hu, if_pos hn]

theorem sliceJS_ofNat (buf : List Nat) (n : Nat) :
    sliceJS buf (n : Int) = buf.drop n := by
  rcases le_or_lt n buf.length with h | h
  · simp only [sliceJS]
    rw [if_neg (by omega), min_eq_left (by exact_mod_cast h)]
    simp
  · simp only [sliceJS]
    rw [if_neg (by omega), min_eq_right (by exact_mod_cast h.le)]
    simp [List.drop_eq_nil_of_le h.le]

theorem sliceJS_nil_of_ge (buf : List Nat) (start : Int)
    (h : (buf.length : Int) ≤ start) : sliceJS buf start = [] := by
  simp only [sliceJS]
  rw [if_neg (by omega), min_eq_right h]
  simp

theorem sliceJS_isSuffix (buf : List Nat) (start : Int) :
    (sliceJS buf start).IsSuffix buf := by
  simp only [sliceJS]
  exact List.drop_suffix _ _

theorem uploadZipData_crx (fileName : String) (buf : List Nat)
    (h : endsWithJS fileName ".crx" = true) :
    uploadZipData fileName buf
      = sliceJS buf (16 + readLE32 buf 12 + readLE32 buf 16) := by
  simp [uploadZipData, h]

theorem uploadZipData_zip (fileName : String) (buf : List Nat)
    (h : endsWithJS fileName ".crx" = false) :
    uploadZipData fileName buf = buf := by
  simp [uploadZipData, h]

theorem handleFileUpload_zip_pack (st : AppState) (fileName : String)
    (es : List ZipEntry)
    (hz : endsWithJS fileName ".zip" = true)
    (hc : endsWithJS fileName ".crx" = false) :
    handleFileUpload st fileName (packArchive es)
      = ({ files := extractFiles es, manifest := computeManifest es,
            selectedFile := none },
          UploadOutcome.success (extractFiles es).length) := by
  simp [handleFileUpload, hz, uploadZipData_zip fileName (packArchive es) hc,
    loadZip_pack]

theorem manifestStep_skip (acc : Option Json) (e : ZipEntry)
    (h : e.path ≠ "manifest.json") : manifestStep acc e = acc := by
  have hb : (e.path == "manifest.json") = false := beq_eq_false_iff_ne.mpr h
  simp [manifestStep, hb]

theorem manifestStep_none (e : ZipEntry)
    (h : e.path = "manifest.json" → parseJson (bytesToText e.data) = none) :
    manifestStep none e = none := by
  by_cases hp : e.path = "manifest.json"
  · cases hdir : e.dir
    · simp [manifestStep, hp, hdir, h hp]
    · simp [manifestStep, hdir]
  · exact manifestStep_skip none e hp

theorem computeManifest_none_of_bad (es : List ZipEntry)
    (h : ∀ e ∈ es, e.path = "manifest.json" → parseJson (bytesToText e.data) = none) :
    computeManifest es = none := by
  rw [computeManifest]
  induction es with
  | nil => rfl
  | cons e es ih =>
    rw [List.foldl_cons, manifestStep_none e (h e (List.mem_cons_self e es))]
    exact ih fun x hx => h x (List.mem_cons_of_mem e hx)

theorem computeManifest_none_of_absent (es : List ZipEntry)
    (h : ∀ e ∈ es, e.path ≠ "manifest.json") :
    computeManifest es = none :=
  computeManifest_none_of_bad es fun e he hp => absurd hp (h e he)

theorem char_toNat_ofNat_lt (b : Nat) (h : b < 128) : (Char.ofNat b).toNat = b := by
  have hv : b.isValidChar := Or.inl (by omega)
  simp only [Char.ofNat, hv, dif_pos, Char.ofNatAux, Char.toNat, UInt32.toNat,
    BitVec.toNat_ofNatLt]

theorem utf8DecodeAux_ascii (fuel : Nat) (l : List Nat) (hf : l.length < fuel)
    (h : ∀ b ∈ l, b < 128) : utf8DecodeAux fuel l = l.map Char.ofNat := by
  induction fuel generalizing l with
  | zero => omega
  | succ fuel ih =>
    cases l with
    | nil => rfl
    | cons b rest =>
      have hb : b < 128 := h b (List.mem_cons_self b rest)
      rw [utf8DecodeAux.eq_def]
      simp only [if_pos hb]
      rw [ih rest (by simp only [List.length_cons] at hf; omega)
        fun x hx => h x (List.mem_cons_of_mem b hx)]
      rfl

theorem utf8Decode_ascii (l : List Nat) (h : ∀ b ∈ l, b < 128) :
    utf8Decode l = l.map Char.ofNat :=
  utf8DecodeAux_ascii (l.length + 1) l (by omega) h

theorem utf16Length_foldl (cs : List Char) (n : Nat)
    (h : ∀ c ∈ cs, c.toNat < 65536) :
    cs.foldl (fun k c => k + (if c.toNat < 65536 then 1 else 2)) n = n + cs.length := by
  induction cs generalizing n with
  | nil => simp
  | cons c cs ih =>
    rw [List.foldl_cons, if_pos (h c (List.mem_cons_self c cs)),
      ih _ fun x hx => h x (List.mem_cons_of_mem c hx)]
    simp only [List.length_cons]
    omega

theorem bytesToText_ascii (l : List Nat) (h : ∀ b ∈ l, b < 128) :
    utf16Length (bytesToText l) = l.length
    ∧ (bytesToText l).data.map Char.toNat = l := by
  have hdec : utf8Decode l = l.map Char.ofNat := utf8Decode_ascii l h
  have hdata : (bytesToText l).data = l.map Char.ofNat := by
    rw [bytesToText, hdec]
  constructor
  · rw [utf16Length, hdata]
    have hc : ∀ c ∈ l.map Char.ofNat, c.toNat < 65536 := by
      intro c hc
      obtain ⟨b, hb, rfl⟩ := List.mem_map.mp hc
      rw [char_toNat_ofNat_lt b (h b hb)]
      have := h b hb
      omega
    rw [utf16Length_foldl _ 0 hc]
    simp
  · rw [hdata, List.map_map]
    have hid : ∀ b ∈ l, (Char.toNat ∘ Char.ofNat) b = id b := by
      intro b hb
      simp only [Function.comp_apply, id_eq]
      exact char_toNat_ofNat_lt b (h b hb)
    rw [List.map_congr_left hid, List.map_id]

/-- The initial component state: no files, no manifest, no selection. -/
def emptyAppState : AppState := ⟨[], none, none⟩

/-- Byte list of an ASCII string, for building concrete archive members. -/
def strBytes (s : String) : List Nat :=
  s.data.map (fun c => c.toNat)

/-! ### Claims -/

/-- C4: for every uploaded file whose name ends in neither `.crx` nor
`.zip`, the handler reports the invalid-input validation message and
returns with the state untouched, before any header computation or
decompression is attempted (the result does not depend on the buffer). -/
theorem upload_wrong_extension_rejected (st : AppState) (fileName : String)
    (buf : List Nat) (hc : endsWithJS fileName ".crx" = false)
    (hz : endsWithJS fileName ".zip" = false) :
    handleFileUpload st fileName buf = (st, UploadOutcome.invalidInput) := by
  simp [handleFileUpload, hc, hz]

/-- C4 (witness): a concrete `.txt` upload is rejected unprocessed. -/
theorem upload_wrong_extension_rejected_witness :
    handleFileUpload emptyAppState "notes.txt" [1, 2, 3]
      = (emptyAppState, UploadOutcome.invalidInput) :=
  upload_wrong_extension_rejected emptyAppState "notes.txt" [1, 2, 3]
    (by decide) (by decide)

/-- C3: the text classification of every extracted entry is decided by the
path alone — it equals the extension test on the entry's name, it is
unchanged when only the content bytes change, a file named `data.json` is
always classified text whatever its bytes, and a file named `icon.png` is
always classified binary. -/
theorem isText_depends_only_on_path :
    (∀ (entries : List ZipEntry) (f : ExtensionFile),
        f ∈ extractFiles entries → f.isText = isTextFile f.name)
    ∧ (∀ (p : String) (d1 d2 : List Nat),
        (toExtensionFile ⟨p, false, d1⟩).isText = (toExtensionFile ⟨p, false, d2⟩).isText)
    ∧ (∀ data : List Nat, (toExtensionFile ⟨"data.json", false, data⟩).isText = true)
    ∧ (∀ data : List Nat, (toExtensionFile ⟨"icon.png", false, data⟩).isText = false) := by
  refine ⟨?_, ?_, ?_, ?_⟩
  · intro entries f hf
    rw [extractFiles] at hf
    obtain ⟨e, _, rfl⟩ := List.mem_map.mp hf
    rfl
  · intro p d1 d2
    rfl
  · intro data
    rfl
  · intro data
    rfl

/-- C3 (witness): the classification facts at concrete entries — a
`data.json` with non-UTF-8-looking bytes is text, an `icon.png` holding
plain ASCII is binary. -/
theorem isText_depends_only_on_path_witness :
    ((toExtensionFile ⟨"data.json", false, [0, 159, 255]⟩).isText
        = isTextFile (toExtensionFile ⟨"data.json", false, [0, 159, 255]⟩).name)
    ∧ ((toExtensionFile ⟨"data.json", false, [0, 159, 255]⟩).isText = true)
    ∧ ((toExtensionFile ⟨"icon.png", false, [104, 105]⟩).isText = false) :=
  ⟨isText_depends_only_on_path.1 [⟨"data.json", false, [0, 159, 255]⟩] _
      (by decide),
    isText_depends_only_on_path.2.2.1 [0, 159, 255],
    isText_depends_only_on_path.2.2.2 [104, 105]⟩

/-- C8: at the second of two consecutive run clicks, the first preview URL
is still live when the new object URL is created, and afterwards two URLs
are live — the claimed revoke-before-create discipline fails on the
`runExtension` path; `refreshExtension` and `downloadFile` do revoke. -/
theorem run_twice_leaks_url :
    ((runExtension [] initialRunnerState).liveUrls ≠ [])
    ∧ ((runExtension [] (runExtension [] initialRunnerState)).liveUrls.length = 2)
    ∧ ((refreshExtension [] (runExtension [] initialRunnerState)).liveUrls.length = 1)
    ∧ ((downloadFile initialRunnerState).liveUrls = []) := by
  refine ⟨by decide, rfl, rfl, rfl⟩

/-- The JSON text of the example manifest. -/
def manifestJsonStr : String :=
  "\x7b\"name\":\"Test\",\"version\":\"1.0\",\"manifest_version\":3,\"permissions\":[\"storage\"]\x7d"

/-- The concrete example archive: `manifest.json` and `popup.html`. -/
def exampleArchive : List ZipEntry :=
  [⟨"manifest.json", false, strBytes manifestJsonStr⟩,
   ⟨"popup.html", false, strBytes "<html></html>"⟩]

/-- The upload handler applied to the packed example archive. -/
def exampleResult : AppState × UploadOutcome :=
  handleFileUpload emptyAppState "ext.zip" (packArchive exampleArchive)

/-- C9: unpacking the concrete archive holding `manifest.json` (with name
Test, version 1.0, manifest_version 3, permissions [storage]) and
`popup.html` yields a descriptor with exactly those four fields, an entry
list of length 2, and both entries classified as text. -/
theorem example_archive_unpack :
    (exampleResult.1.manifest.map (fun j => Json.getField j "name")
        = some (some (Json.str "Test")))
    ∧ (exampleResult.1.manifest.map (fun j => Json.getField j "version")
        = some (some (Json.str "1.0")))
    ∧ (exampleResult.1.manifest.map (fun j => Json.getField j "manifest_version")
        = some (some (Json.num 3)))
    ∧ (exampleResult.1.manifest.map (fun j => Json.getField j "permissions")
        = some (some (Json.arr [Json.str "storage"])))
    ∧ (exampleResult.1.files.length = 2)
    ∧ (exampleResult.1.files.all (fun f => f.isText) = true)
    ∧ (exampleResult.2 = UploadOutcome.success 2) :=
  ⟨rfl, rfl, rfl, rfl, rfl, rfl, rfl⟩

/-- C2 (counterexample): a text-classified member holding the two UTF-8
bytes of the character é unpacks to an entry whose recorded size is 1 —
the decoded JavaScript string's length — not the packed member's byte
size 2, and whose content is the one-character decoded string rather than
the raw bytes, refuting the universal size-and-content preservation
claim. -/
theorem text_member_size_not_byte_size :
    ((handleFileUpload emptyAppState "pack.zip"
        (packArchive [⟨"note.txt", false, [195, 169]⟩])).1.files.map (fun f => f.size)
      = [1])
    ∧ (([195, 169] : List Nat).length = 2)
    ∧ ((handleFileUpload emptyAppState "pack.zip"
        (packArchive [⟨"note.txt", false, [195, 169]⟩])).1.files.map (fun f => f.content)
      = [FileContent.text "é"])
    ∧ ((handleFileUpload emptyAppState "pack.zip"
        (packArchive [⟨"note.txt", false, [195, 169]⟩])).2
      = UploadOutcome.success 1) :=
  ⟨rfl, rfl, rfl, rfl⟩

/-- C2 (amended theorem): for every plain archive input, the unpacked
collection is exactly the archive's non-directory members in order, and
every produced entry carries the packed member's path; binary-classified
entries carry the member's byte size and raw content exactly;
text-classified entries carry the UTF-8 decoding of the member's bytes as
content and the decoded JavaScript string's length as size — and whenever
a member's bytes are ASCII, that size equals the member's byte size and
the decoded content re-encodes to exactly the original bytes.  The upload
succeeds reporting the entry count. -/
theorem zip_pack_unpack_roundtrip (st : AppState) (fileName : String)
    (es : List ZipEntry)
    (hz : endsWithJS fileName ".zip" = true)
    (hc : endsWithJS fileName ".crx" = false) :
    ((handleFileUpload st fileName (packArchive es)).1.files
      = (es.filter (fun e => !e.dir)).map (fun e =>
          { name := e.path,
            size :=
              if isTextFile e.path then utf16Length (bytesToText e.data)
              else e.data.length,
            content :=
              if isTextFile e.path then FileContent.text (bytesToText e.data)
              else FileContent.binary e.data,
            isText := isTextFile e.path }))
    ∧ (∀ e ∈ es, (∀ b ∈ e.data, b < 128) →
        utf16Length (bytesToText e.data) = e.data.length
        ∧ (bytesToText e.data).data.map Char.toNat = e.data)
    ∧ ((handleFileUpload st fileName (packArchive es)).2
        = UploadOutcome.success ((es.filter (fun e => !e.dir)).length)) := by
  rw [handleFileUpload_zip_pack st fileName es hz hc]
  refine ⟨?_, ?_, ?_⟩
  · simp only [extractFiles]
    apply List.map_congr_left
    intro e _
    rw [toExtensionFile]
    by_cases ht : isTextFile e.path
    · simp [ht, contentSize]
    · simp [ht, contentSize]
  · intro e _ hascii
    exact bytesToText_ascii e.data hascii
  · simp [extractFiles]

/-- C2 (witness): the amended round trip on a concrete archive with an
ASCII text member (size 2 equals its byte count, content re-encoding to
its bytes), a directory member (discarded), and a binary member. -/
theorem zip_pack_unpack_roundtrip_witness :
    ((handleFileUpload emptyAppState "pack.zip"
        (packArchive [⟨"a.json", false, [65, 66]⟩, ⟨"img/", true, []⟩,
          ⟨"icon.png", false, [1, 2, 3]⟩])).1.files
      = [⟨"a.json", 2, FileContent.text "AB", true⟩,
         ⟨"icon.png", 3, FileContent.binary [1, 2, 3], false⟩])
    ∧ (utf16Length (bytesToText [65, 66]) = 2
        ∧ (bytesToText [65, 66]).data.map Char.toNat = [65, 66])
    ∧ ((handleFileUpload emptyAppState "pack.zip"
        (packArchive [⟨"a.json", false, [65, 66]⟩, ⟨"img/", true, []⟩,
          ⟨"icon.png", false, [1, 2, 3]⟩])).2 = UploadOutcome.success 2) := by
  have h := zip_pack_unpack_roundtrip emptyAppState "pack.zip"
    [⟨"a.json", false, [65, 66]⟩, ⟨"img/", true, []⟩, ⟨"icon.png", false, [1, 2, 3]⟩]
    (by decide) (by decide)
  refine ⟨?_, h.2.1 ⟨"a.json", false, [65, 66]⟩ (by decide) (by decide), ?_⟩
  · rw [h.1]
    rfl
  · rw [h.2.2]
    rfl

/-- C10: a manifest descriptor is produced only for an entry whose path is
exactly the top-level string `manifest.json` (case-sensitive, no directory
prefix): an archive none of whose entry paths equals that string — for
example one whose only manifests live at `subdir/manifest.json` or
`Manifest.json` — unpacks successfully but yields no descriptor. -/
theorem manifest_exact_path_only (st : AppState) (fileName : String)
    (es : List ZipEntry)
    (hz : endsWithJS fileName ".zip" = true)
    (hc : endsWithJS fileName ".crx" = false)
    (hno : ∀ e ∈ es, e.path ≠ "manifest.json") :
    (handleFileUpload st fileName (packArchive es)).1.manifest = none
    ∧ (handleFileUpload st fileName (packArchive es)).2
        = UploadOutcome.success ((es.filter (fun e => !e.dir)).length) := by
  rw [handleFileUpload_zip_pack st fileName es hz hc]
  refine ⟨computeManifest_none_of_absent es hno, ?_⟩
  simp [extractFiles]

/-- C10 (witness): an archive holding valid manifest JSON at the nested
path `subdir/manifest.json` and at the differently-cased `Manifest.json`
unpacks with two files and no descriptor. -/
theorem manifest_exact_path_only_witness :
    (handleFileUpload emptyAppState "ext.zip"
        (packArchive [⟨"subdir/manifest.json", false, strBytes manifestJsonStr⟩,
          ⟨"Manifest.json", false, strBytes manifestJsonStr⟩])).1.manifest = none
    ∧ (handleFileUpload emptyAppState "ext.zip"
        (packArchive [⟨"subdir/manifest.json", false, strBytes manifestJsonStr⟩,
          ⟨"Manifest.json", false, strBytes manifestJsonStr⟩])).2
        = UploadOutcome.success 2 := by
  have h := manifest_exact_path_only emptyAppState "ext.zip"
    [⟨"subdir/manifest.json", false, strBytes manifestJsonStr⟩,
      ⟨"Manifest.json", false, strBytes manifestJsonStr⟩]
    (by decide) (by decide)
    (by
      intro e he
      simp only [List.mem_cons, List.not_mem_nil, or_false] at he
      rcases he with rfl | rfl
      · decide
      · decide)
  exact ⟨h.1, h.2⟩

/-- C5: for every archive containing a `manifest.json` entry whose content
is malformed JSON, the unpack still succeeds: the parse error is
swallowed, no manifest descriptor is produced, and the extracted file list
is non-empty and still contains `manifest.json`. -/
theorem malformed_manifest_swallowed (st : AppState) (fileName : String)
    (es : List ZipEntry)
    (hz : endsWithJS fileName ".zip" = true)
    (hc : endsWithJS fileName ".crx" = false)
    (hbad : ∀ e ∈ es, e.path = "manifest.json" → parseJson (bytesToText e.data) = none)
    (hmem : ∃ e ∈ es, e.path = "manifest.json" ∧ e.dir = false) :
    (handleFileUpload st fileName (packArchive es)).1.manifest = none
    ∧ (handleFileUpload st fileName (packArchive es)).1.files ≠ []
    ∧ "manifest.json" ∈ (handleFileUpload st fileName (packArchive es)).1.files.map
        (fun f => f.name)
    ∧ (handleFileUpload st fileName (packArchive es)).2
        = UploadOutcome.success ((es.filter (fun e => !e.dir)).length) := by
  rw [handleFileUpload_zip_pack st fileName es hz hc]
  obtain ⟨e, he, hpath, hdir⟩ := hmem
  have hfe : toExtensionFile e ∈ extractFiles es := by
    rw [extractFiles]
    exact List.mem_map_of_mem _ (List.mem_filter.mpr ⟨he, by simp [hdir]⟩)
  refine ⟨computeManifest_none_of_bad es hbad, List.ne_nil_of_mem hfe, ?_, ?_⟩
  · exact List.mem_map.mpr ⟨toExtensionFile e, hfe, hpath⟩
  · simp [extractFiles]

/-- C5 (witness): an archive whose `manifest.json` content is the
malformed text `{invalid` unpacks with two files and no descriptor. -/
theorem malformed_manifest_swallowed_witness :
    (handleFileUpload emptyAppState "bad.zip"
        (packArchive [⟨"manifest.json", false, strBytes "\x7binvalid"⟩,
          ⟨"a.js", false, [1]⟩])).1.manifest = none
    ∧ (handleFileUpload emptyAppState "bad.zip"
        (packArchive [⟨"manifest.json", false, strBytes "\x7binvalid"⟩,
          ⟨"a.js", false, [1]⟩])).1.files ≠ []
    ∧ (handleFileUpload emptyAppState "bad.zip"
        (packArchive [⟨"manifest.json", false, strBytes "\x7binvalid"⟩,
          ⟨"a.js", false, [1]⟩])).2 = UploadOutcome.success 2 := by
  have h := malformed_manifest_swallowed emptyAppState "bad.zip"
    [⟨"manifest.json", false, strBytes "\x7binvalid"⟩, ⟨"a.js", false, [1]⟩]
    (by decide) (by decide)
    (by
      intro e he
      simp only [List.mem_cons, List.not_mem_nil, or_false] at he
      rcases he with rfl | rfl
      · intro _
        rfl
      · intro hp
        exact absurd hp (by decide))
    ⟨⟨"manifest.json", false, strBytes "\x7binvalid"⟩, by simp, rfl, rfl⟩
  refine ⟨h.1, h.2.1, ?_⟩
  rw [h.2.2.2]
  rfl

/-- C6 (counterexample): a completed-but-failed upload does not discard
the previous upload's state — after a successful upload of one file, a
second upload that fails to process leaves the previous file entries in
place, contradicting the claim that every upload discards all prior state
whether it succeeds or fails. -/
theorem failed_upload_keeps_state :
    ((handleFileUpload
        (handleFileUpload emptyAppState "a.zip" (packArchive [⟨"a.js", false, [1]⟩])).1
        "b.zip" [0]).1.files ≠ [])
    ∧ ((handleFileUpload
        (handleFileUpload emptyAppState "a.zip" (packArchive [⟨"a.js", false, [1]⟩])).1
        "b.zip" [0]).2 = UploadOutcome.processingError) :=
  ⟨by decide, rfl⟩

/-- C6 (amended): a successful upload fully replaces the current-package
state — the resulting state is independent of the previous state (never a
merge) and clears the file selection — while a failed or rejected upload
leaves the previous state untouched. -/
theorem upload_state_replacement (st st' : AppState) (fileName : String)
    (buf : List Nat) :
    ((handleFileUpload st fileName buf).2 = (handleFileUpload st' fileName buf).2)
    ∧ (∀ k, (handleFileUpload st fileName buf).2 = UploadOutcome.success k →
        (handleFileUpload st fileName buf).1 = (handleFileUpload st' fileName buf).1
        ∧ (handleFileUpload st fileName buf).1.selectedFile = none)
    ∧ ((handleFileUpload st fileName buf).2 = UploadOutcome.invalidInput
        ∨ (handleFileUpload st fileName buf).2 = UploadOutcome.processingError →
        (handleFileUpload st fileName buf).1 = st) := by
  rw [handleFileUpload, handleFileUpload]
  by_cases hg : ¬ (endsWithJS fileName ".crx" = true) ∧ ¬ (endsWithJS fileName ".zip" = true)
  · rw [if_pos hg, if_pos hg]
    simp
  · rw [if_neg hg, if_neg hg]
    cases hL : loadZip (uploadZipData fileName buf) with
    | none => simp [hL]
    | some entries => simp [hL]

/-- C6 (witness for the amended claim): a successful second upload over a
non-empty previous state equals the upload from the empty state — full
replacement — and a rejected upload keeps the previous state. -/
theorem upload_state_replacement_witness :
    ((handleFileUpload (⟨[⟨"old.js", 1, FileContent.binary [7], false⟩], none, none⟩)
        "a.zip" (packArchive [⟨"a.js", false, [1]⟩])).1
      = (handleFileUpload emptyAppState "a.zip" (packArchive [⟨"a.js", false, [1]⟩])).1)
    ∧ ((handleFileUpload (⟨[⟨"old.js", 1, FileContent.binary [7], false⟩], none, none⟩)
        "a.zip" (packArchive [⟨"a.js", false, [1]⟩])).1.selectedFile = none) :=
  (upload_state_replacement (⟨[⟨"old.js", 1, FileContent.binary [7], false⟩], none, none⟩)
    emptyAppState "a.zip" (packArchive [⟨"a.js", false, [1]⟩])).2.1 1 (by rfl)

/-- C1 (counterexample): a signed-package buffer (length 25, header fields
P = S = 0) whose computed archive start 16 lands inside the buffer, yet
unpacking fails because the sliced payload is not a loadable archive —
refuting "unpacking succeeds iff that offset lands inside the buffer". -/
theorem crx_inside_offset_can_fail :
    (16 + readLE32 (List.replicate 20 0 ++ [9, 9, 9, 9, 9]) 12
        + readLE32 (List.replicate 20 0 ++ [9, 9, 9, 9, 9]) 16 = (16 : Int))
    ∧ ((16 : Int) < ((List.replicate 20 0 ++ [9, 9, 9, 9, 9] : List Nat).length : Int))
    ∧ (handleFileUpload emptyAppState "pkg.crx" (List.replicate 20 0 ++ [9, 9, 9, 9, 9])
        = (emptyAppState, UploadOutcome.processingError)) :=
  ⟨by decide, by decide, rfl⟩

/-- C1 (amended theorem): for a signed-package input whose bytes 12-15 and
16-19 encode P and S as little-endian 32-bit fields, the unpacker reads
exactly those values, computes the archive start 16 + P + S, and slices
the buffer from that offset to the end as the archive payload; unpacking
succeeds iff that offset lands inside the buffer AND the sliced payload is
a loadable archive. -/
theorem crx_header_unpack (st : AppState) (fileName : String)
    (pre : List Nat) (P S : Nat) (tail : List Nat)
    (hcrx : endsWithJS fileName ".crx" = true)
    (hpre : pre.length = 12) (hP : P < 2147483648) (hS : S < 2147483648) :
    readLE32 (pre ++ (le32 P ++ (le32 S ++ tail))) 12 = P
    ∧ readLE32 (pre ++ (le32 P ++ (le32 S ++ tail))) 16 = S
    ∧ uploadZipData fileName (pre ++ (le32 P ++ (le32 S ++ tail)))
        = (pre ++ (le32 P ++ (le32 S ++ tail))).drop (16 + P + S)
    ∧ ((∃ k, (handleFileUpload st fileName (pre ++ (le32 P ++ (le32 S ++ tail)))).2
          = UploadOutcome.success k)
        ↔ 16 + P + S < (pre ++ (le32 P ++ (le32 S ++ tail))).length
          ∧ (loadZip ((pre ++ (le32 P ++ (le32 S ++ tail))).drop (16 + P + S))).isSome
              = true) := by
  have h12 : readLE32 (pre ++ (le32 P ++ (le32 S ++ tail))) 12 = P :=
    readLE32_append pre P (le32 S ++ tail) 12 hpre hP
  have h16 : readLE32 (pre ++ (le32 P ++ (le32 S ++ tail))) 16 = S := by
    have hassoc : pre ++ (le32 P ++ (le32 S ++ tail))
        = (pre ++ le32 P) ++ (le32 S ++ tail) :=
      (List.append_assoc pre (le32 P) (le32 S ++ tail)).symm
    rw [hassoc]
    exact readLE32_append (pre ++ le32 P) S tail 16 (by simp [hpre, le32]) hS
  have hzd : uploadZipData fileName (pre ++ (le32 P ++ (le32 S ++ tail)))
      = (pre ++ (le32 P ++ (le32 S ++ tail))).drop (16 + P + S) := by
    rw [uploadZipData_crx _ _ hcrx, h12, h16]
    have hcast : (16 : Int) + (P : Int) + (S : Int) = ((16 + P + S : Nat) : Int) := by
      push_cast
      ring
    rw [hcast, sliceJS_ofNat]
  refine ⟨h12, h16, hzd, ?_⟩
  rw [handleFileUpload, if_neg (by simp [hcrx]), hzd]
  cases hL : loadZip ((pre ++ (le32 P ++ (le32 S ++ tail))).drop (16 + P + S)) with
  | none =>
    simp [hL]
  | some entries =>
    have h4 := loadZip_length_ge _ _ hL
    rw [List.length_drop] at h4
    simp only [hL, Option.isSome_some]
    constructor
    · intro _
      exact ⟨by omega, by simp⟩
    · intro _
      exact ⟨(extractFiles entries).length, rfl⟩

/-- C1 (witness): a concrete signed package with P = 2, S = 2 and a valid
packed archive at offset 20 — the header fields are read back, the offset
lands inside the buffer, and unpacking succeeds. -/
theorem crx_header_unpack_witness :
    readLE32 (List.replicate 12 0
        ++ (le32 2 ++ (le32 2 ++ packArchive [⟨"a.json", false, [65]⟩]))) 12 = 2
    ∧ (∃ k, (handleFileUpload emptyAppState "pkg.crx"
        (List.replicate 12 0
          ++ (le32 2 ++ (le32 2 ++ packArchive [⟨"a.json", false, [65]⟩])))).2
          = UploadOutcome.success k) := by
  have h := crx_header_unpack emptyAppState "pkg.crx" (List.replicate 12 0) 2 2
    (packArchive [⟨"a.json", false, [65]⟩]) (by decide) (by decide) (by decide) (by decide)
  exact ⟨h.1, h.2.2.2.mpr ⟨by decide, by rfl⟩⟩

/-- C7: for a signed-package input, the slice at the computed archive
start never fails fast: an offset at or past the end of the buffer
silently yields the empty payload and the upload fails only later, at
decompression, with the single generic processing error; a negative offset
silently yields a suffix of the buffer (garbage); whenever the payload
fails to load, the outcome is that same generic error — never the
structured invalid-input report. -/
theorem crx_out_of_range_slice (st : AppState) (fileName : String)
    (buf : List Nat) (hcrx : endsWithJS fileName ".crx" = true) :
    ((handleFileUpload st fileName buf).2 ≠ UploadOutcome.invalidInput)
    ∧ ((buf.length : Int) ≤ 16 + readLE32 buf 12 + readLE32 buf 16 →
        sliceJS buf (16 + readLE32 buf 12 + readLE32 buf 16) = []
        ∧ handleFileUpload st fileName buf = (st, UploadOutcome.processingError))
    ∧ (16 + readLE32 buf 12 + readLE32 buf 16 < 0 →
        (sliceJS buf (16 + readLE32 buf 12 + readLE32 buf 16)).IsSuffix buf)
    ∧ (loadZip (sliceJS buf (16 + readLE32 buf 12 + readLE32 buf 16)) = none →
        handleFileUpload st fileName buf = (st, UploadOutcome.processingError)) := by
  have hzd := uploadZipData_crx fileName buf hcrx
  have hload : ∀ hL : loadZip (sliceJS buf (16 + readLE32 buf 12 + readLE32 buf 16)) = none,
      handleFileUpload st fileName buf = (st, UploadOutcome.processingError) := by
    intro hL
    rw [handleFileUpload, if_neg (by simp [hcrx]), hzd, hL]
  refine ⟨?_, ?_, ?_, hload⟩
  · rw [handleFileUpload, if_neg (by simp [hcrx]), hzd]
    cases hL : loadZip (sliceJS buf (16 + readLE32 buf 12 + readLE32 buf 16)) with
    | none => simp
    | some entries => simp
  · intro hge
    have hnil : sliceJS buf (16 + readLE32 buf 12 + readLE32 buf 16) = [] :=
      sliceJS_nil_of_ge buf _ hge
    refine ⟨hnil, hload ?_⟩
    rw [hnil]
    exact loadZip_nil
  · intro _
    exact sliceJS_isSuffix buf _

/-- C7 (witness): a 20-byte signed-package buffer declaring P = 100 puts
the archive start at 116, past the end; the slice is empty and the upload
reports the generic processing error. -/
theorem crx_out_of_range_slice_witness :
    (((List.replicate 12 0 ++ le32 100 ++ le32 0 : List Nat).length : Int)
        ≤ 16 + readLE32 (List.replicate 12 0 ++ le32 100 ++ le32 0) 12
          + readLE32 (List.replicate 12 0 ++ le32 100 ++ le32 0) 16)
    ∧ sliceJS (List.replicate 12 0 ++ le32 100 ++ le32 0)
        (16 + readLE32 (List.replicate 12 0 ++ le32 100 ++ le32 0) 12
          + readLE32 (List.replicate 12 0 ++ le32 100 ++ le32 0) 16) = []
    ∧ handleFileUpload emptyAppState "pkg.crx" (List.replicate 12 0 ++ le32 100 ++ le32 0)
        = (emptyAppState, UploadOutcome.processingError) := by
  have h := (crx_out_of_range_slice emptyAppState "pkg.crx"
    (List.replicate 12 0 ++ le32 100 ++ le32 0) (by decide)).2.1 (by decide)
  exact ⟨by decide, h.1, h.2⟩
